import Mathlib

/-!
Shallow embedding of the JobSearch repository (src/IndeedScrapingNotebook.ipynb
plus the `queries` module it imports).  The notebook defines the pagination
walker (`more_pages`, `get_page_results`) and the detail extractor
(`get_header_information`, `get_posting_info`); the query-parameter model
(`QueryArgument`, `Query` and the two Indeed presets) lives in `queries.py`,
which is not part of the sources, so it is modelled from the specification.
External collaborators (HTTP fetch, BeautifulSoup parsing) are abstracted:
a fetched-and-parsed results page is a `ResultsPage` value, a detail page a
`DetailPage` value, and Python exceptions raised while scraping are embedded
as `Except` error values.
-/

namespace JobSearch

/-- Logical values carried by query fields: Python `str` or `int`. -/
inductive Value where
  | vs : String → Value
  | vi : Int → Value
deriving DecidableEq, Repr

/-- Declared value types of a field (`str` / `int` in the notebook). -/
inductive VType where
  | tstr : VType
  | tint : VType
deriving DecidableEq, Repr

def Value.typeOf : Value → VType
  | .vs _ => .tstr
  | .vi _ => .tint

def Value.toStr : Value → String
  | .vs s => s
  | .vi n => toString n

/-- Uppercase hexadecimal digit of a value below 16. -/
def hexDigit (n : Nat) : Char :=
  if n < 10 then Char.ofNat (48 + n) else Char.ofNat (55 + n)

/-- Characters `urllib.parse.quote_plus` leaves unescaped. -/
def isUnreserved (c : Char) : Bool :=
  c.isAlphanum || c == '_' || c == '.' || c == '-' || c == '~'

/-- Percent-encoding of one character, with space encoded as `+`
(`urllib.parse.quote_plus` on ASCII input, which is all the model uses). -/
def encodeChar (c : Char) : String :=
  if isUnreserved c then String.singleton c
  else if c == ' ' then "+"
  else "%" ++ String.singleton (hexDigit (c.toNat / 16 % 16))
      ++ String.singleton (hexDigit (c.toNat % 16))

/-- Percent-encode a string the way `urllib.parse.urlencode` encodes each
key and value (`quote_plus`). -/
def quote_plus (s : String) : String :=
  String.join (s.toList.map encodeChar)

/-- Space-joining of a list of already-formatted values, starting from an
initial accumulated string. -/
def joinFrom (s : String) (vs : List String) : String :=
  vs.foldl (fun a v => a ++ " " ++ v) s

/-- Values of one wire-key group joined with a single space, in order. -/
def sjoin : List String → String
  | [] => ""
  | v :: vs => joinFrom v vs

/-- First value stored under a key in an association list. -/
def lookupKey : List (String × String) → String → Option String
  | [], _ => none
  | p :: ps, k => if p.1 == k then some p.2 else lookupKey ps k

/-- Formatted values carried by a given wire key, in declaration order. -/
def valuesFor (l : List (String × String)) (k : String) : List String :=
  (l.filter (fun p => p.1 == k)).map Prod.snd

/-- Query-string groups joined with `&`. -/
def joinAmp : List String → String
  | [] => ""
  | [x] => x
  | x :: xs => x ++ "&" ++ joinAmp xs

/-- Modelled from the spec: the `QueryArgument` dataclass of the missing
`queries.py` module ("Field Descriptor", spec section 3).  Fields mirror the
constructor keywords used at the notebook's call sites: `wireKey` is the
literal query-string parameter name, `valueType` the declared value type
(optional, since `from_age` is declared without one), `required`, `choices`,
a `fmt` template applied before serialization, `requires` naming the wire key
of the partner field that must also hold a value, `mutable`, the `fixedValue`
of an immutable field, and a cosmetic display name. -/
structure QueryArgument where
  wireKey : String
  valueType : Option VType := none
  required : Bool := false
  choices : Option (List Value) := none
  fmt : Option String := none
  requires : Option String := none
  mutable : Bool := true
  fixedValue : Option Value := none
  dispName : String := ""
deriving DecidableEq, Repr

/-- Opening brace character of a format placeholder. -/
def lbrace : Char := Char.ofNat 123

/-- Closing brace character of a format placeholder. -/
def rbrace : Char := Char.ofNat 125

/-- Substitution engine for Python `str.format`: every brace-pair
placeholder in the template is replaced by the value's characters. -/
def fmtApplyAux (s : List Char) : List Char → List Char
  | [] => []
  | [c] => [c]
  | c :: c2 :: rest =>
    if c = lbrace ∧ c2 = rbrace then s ++ fmtApplyAux s rest
    else c :: fmtApplyAux s (c2 :: rest)

/-- Python `template.format(v)` as used by the notebook's salary field:
every brace-pair placeholder is replaced by the value's string form. -/
def fmtApply (t : String) (s : String) : String :=
  ⟨fmtApplyAux s.data t.data⟩

/-- Formatted serialization of one value (spec section 4.1 `format`). -/
def formatVal (f : QueryArgument) (v : Value) : String :=
  match f.fmt with
  | some t => fmtApply t v.toStr
  | none => v.toStr

/-- Modelled from the spec: the Query Model of the missing `queries.py`
(spec section 3) — a base URL plus logical fields in declaration order, each
a (logical name, Field Descriptor, current value-or-absent) entry. -/
structure Query where
  baseUrl : String
  fields : List (String × QueryArgument × Option Value)
deriving DecidableEq, Repr

/-- Current value a field reports: an immutable field always reports its
`fixedValue` (spec section 3 invariant), a mutable one its stored value. -/
def curVal (f : QueryArgument) (st : Option Value) : Option Value :=
  if f.mutable then st else f.fixedValue

/-- Errors of the Query Model (spec section 7 taxonomy). -/
inductive QError where
  | validationError : String → QError
  | missingRequiredFieldError : String → QError
deriving DecidableEq, Repr

def Query.lookupField (q : Query) (n : String) : Option (QueryArgument × Option Value) :=
  (q.fields.find? (fun e => e.1 == n)).map (fun e => e.2)

/-- Spec section 4.2 `get`: current value or absent, never fails. -/
def Query.get (q : Query) (n : String) : Option Value :=
  match q.lookupField n with
  | some (f, st) => curVal f st
  | none => none

def typeOk (f : QueryArgument) (v : Value) : Bool :=
  match f.valueType with
  | some t => v.typeOf == t
  | none => true

def choiceOk (f : QueryArgument) (v : Value) : Bool :=
  match f.choices with
  | some cs => cs.contains v
  | none => true

def mutableOk (f : QueryArgument) (v : Value) : Bool :=
  f.mutable || f.fixedValue == some v

/-- Modelled from the spec: `validate` of a Field Descriptor (spec section
4.1) — fails with `ValidationError` on a type mismatch, on a value outside
`choices`, or on assigning an immutable field anything but its fixed value. -/
def validateArg (f : QueryArgument) (v : Value) : Except QError Unit :=
  if !typeOk f v then .error (.validationError ("type mismatch for " ++ f.wireKey))
  else if !choiceOk f v then
    .error (.validationError ("value not an allowed choice for " ++ f.wireKey))
  else if !mutableOk f v then .error (.validationError ("immutable field " ++ f.wireKey))
  else .ok ()

/-- Does some field of the model currently hold a value under wire key `k`? -/
def hasValueForKey (q : Query) (k : String) : Bool :=
  q.fields.any (fun e => e.2.1.wireKey == k && (curVal e.2.1 e.2.2).isSome)

/-- Cross-field invariant (spec section 3): every field holding a value whose
`requires` partner key is named also finds a value under that partner key. -/
def requiresOk (q : Query) : Bool :=
  q.fields.all (fun e =>
    match curVal e.2.1 e.2.2, e.2.1.requires with
    | some _, some r => hasValueForKey q r
    | _, _ => true)

/-- Store a new value under a logical field name, leaving descriptors and
declaration order untouched. -/
def setField (fields : List (String × QueryArgument × Option Value)) (n : String)
    (v : Value) : List (String × QueryArgument × Option Value) :=
  fields.map (fun e => if e.1 == n then (e.1, e.2.1, some v) else e)

/-- Modelled from the spec: `set` of the Query Model (spec section 4.2) —
validate via the Field Descriptor, tentatively apply, then check the
cross-field `requires` invariant on the resulting full state; any failure
yields `ValidationError` and produces no new state (atomic set). -/
def Query.set (q : Query) (n : String) (v : Value) : Except QError Query :=
  match q.lookupField n with
  | none => .error (.validationError ("unknown field " ++ n))
  | some (f, _) =>
    match validateArg f v with
    | .error e => .error e
    | .ok _ =>
      let q2 : Query := ⟨q.baseUrl, setField q.fields n v⟩
      if requiresOk q2 then .ok q2
      else .error (.validationError ("missing required partner for " ++ n))

/-- State the caller observes after attempting a set: the new model on
success, the unchanged prior model on failure (spec: atomic set). -/
def Query.setOr (q : Query) (n : String) (v : Value) : Query :=
  match q.set n v with
  | .ok q2 => q2
  | .error _ => q

/-- Wire pairs of every field with a present value, in declaration order:
(wire key, formatted value). -/
def presentPairsL (fields : List (String × QueryArgument × Option Value)) :
    List (String × String) :=
  fields.filterMap (fun e =>
    match curVal e.2.1 e.2.2 with
    | some v => some (e.2.1.wireKey, formatVal e.2.1 v)
    | none => none)

def presentPairs (q : Query) : List (String × String) :=
  presentPairsL q.fields

/-- Accumulate one (key, value) wire pair into the per-key groups: append to
the first existing group with this key, space-separated, else open a new
group at the end (spec section 4.2 and design note: multi-valued-per-key
accumulation, never overwrite). -/
def addToGroups : List (String × String) → String → String → List (String × String)
  | [], k, v => [(k, v)]
  | p :: ps, k, v =>
    if p.1 == k then (p.1, p.2 ++ " " ++ v) :: ps else p :: addToGroups ps k v

/-- Group the present wire pairs by wire key, keys in first-occurrence order,
values space-joined in declaration order. -/
def buildGroups (l : List (String × String)) : List (String × String) :=
  l.foldl (fun a p => addToGroups a p.1 p.2) []

/-- Is some `required` field without a current value? -/
def missingRequired (q : Query) : Bool :=
  q.fields.any (fun e => e.2.1.required && (curVal e.2.1 e.2.2).isNone)

/-- Grouped wire pairs of the model, with empty-valued groups omitted
(spec section 4.2). -/
def wirePairs (q : Query) : List (String × String) :=
  (buildGroups (presentPairs q)).filter (fun p => p.2 ≠ "")

/-- Percent-encoded `key=value` form of one group. -/
def encPair (p : String × String) : String :=
  quote_plus p.1 ++ "=" ++ quote_plus p.2

/-- Modelled from the spec: `url` of the Query Model (spec section 4.2) —
fails when a required field has no value, else serializes the grouped wire
pairs as `baseUrl?k1=v1&k2=v2...`. -/
def Query.url (q : Query) : Except QError String :=
  if missingRequired q then
    .error (.missingRequiredFieldError "missing required field")
  else .ok (q.baseUrl ++ "?" ++ joinAmp ((wirePairs q).map encPair))

/-! Field Descriptors of the simple search, from the notebook cell defining
`what` through `start` (the keyword `where` becomes `whereField`). -/

def what : QueryArgument := { wireKey := "q", valueType := some .tstr, dispName := "What" }

def whereField : QueryArgument :=
  { wireKey := "l", valueType := some .tstr, required := true, dispName := "Where" }

def radius : QueryArgument :=
  { wireKey := "radius", valueType := some .tint,
    choices := some [.vi 0, .vi 5, .vi 10, .vi 15, .vi 25, .vi 50, .vi 100],
    dispName := "Miles away" }

def min_salary : QueryArgument :=
  { wireKey := "q", valueType := some .tint, fmt := some ("$" ++ String.singleton lbrace ++ String.singleton rbrace),
    dispName := "Minimum Salary" }

def company : QueryArgument :=
  { wireKey := "rbc", valueType := some .tstr, requires := some "jcid",
    dispName := "Compay Name" }

def company_id : QueryArgument :=
  { wireKey := "jcid", valueType := some .tstr, requires := some "rbc",
    dispName := "Company id" }

def job_type : QueryArgument :=
  { wireKey := "jt", valueType := some .tstr,
    choices := some [.vs "fulltime", .vs "parttime", .vs "contract", .vs "internship",
      .vs "temporary", .vs "commission"],
    dispName := "Job Type" }

def experience : QueryArgument :=
  { wireKey := "explvl", valueType := some .tstr,
    choices := some [.vs "entry_level", .vs "mid_level", .vs "senior_level"],
    dispName := "Experience Level" }

def start : QueryArgument := { wireKey := "start", valueType := some .tint, dispName := "start" }

/-! Field Descriptors of the advanced search, from the notebook cell defining
`all_of_these_words` through `searched_from`. -/

def all_of_these_words : QueryArgument :=
  { wireKey := "as_and", valueType := some .tstr, dispName := "All of these words" }

def exact_phrase : QueryArgument :=
  { wireKey := "as_phr", valueType := some .tstr, dispName := "Exact phrase" }

def any_of_these_words : QueryArgument :=
  { wireKey := "as_any", valueType := some .tstr, dispName := "Any of these words" }

def none_of_these_words : QueryArgument :=
  { wireKey := "as_not", valueType := some .tstr, dispName := "None of these words" }

def title_words : QueryArgument :=
  { wireKey := "as_ttl", valueType := some .tstr, dispName := "These words in title" }

def from_company : QueryArgument :=
  { wireKey := "as_cmp", valueType := some .tstr, dispName := "From this company" }

def from_this_job_site : QueryArgument :=
  { wireKey := "as_src", valueType := some .tstr, dispName := "From this job site" }

def posted_to : QueryArgument :=
  { wireKey := "st", valueType := some .tstr,
    choices := some [.vs "jobsite", .vs "employer"], dispName := "Posted to" }

def hired_by : QueryArgument :=
  { wireKey := "sr", valueType := some .tstr, choices := some [.vs "directhire"],
    dispName := "Who handles hiring" }

def sort_by : QueryArgument :=
  { wireKey := "sort", valueType := some .tstr, choices := some [.vs "date"],
    dispName := "Sort by" }

def limit : QueryArgument :=
  { wireKey := "limit", valueType := some .tint,
    choices := some [.vi 10, .vi 20, .vi 30, .vi 50], dispName := "Per Page" }

def from_age : QueryArgument :=
  { wireKey := "fromage",
    choices := some [.vs "last", .vi 1, .vi 3, .vi 7, .vi 15, .vs "any"],
    dispName := "Max days old" }

def psf : QueryArgument :=
  { wireKey := "psf", valueType := some .tstr, required := true,
    fixedValue := some (.vs "advsrch"), mutable := false, requires := some "from" }

def searched_from : QueryArgument :=
  { wireKey := "from", valueType := some .tstr, required := true,
    fixedValue := some (.vs "advancedsearch"), mutable := false, requires := some "psf" }

/-- Modelled from the spec: the Query constructor of the missing `queries.py`
binds logical names to Field Descriptors in declaration order with no value
stored yet (immutable fields report their fixed value through `curVal`). -/
def mkQuery (base : String) (args : List (String × QueryArgument)) : Query :=
  ⟨base, args.map (fun p => (p.1, p.2, none))⟩

/-- The simple-search preset, from the notebook cell building `IndeedSimple`. -/
def IndeedSimple : Query :=
  mkQuery "https://indeed.com/jobs"
    [("what", what), ("where", whereField), ("radius", radius),
     ("min_salary", min_salary), ("company", company), ("company_id", company_id),
     ("job_type", job_type), ("experience", experience), ("start", start)]

/-- The advanced-search preset, from the notebook cell building
`IndeedAdvanced`. -/
def IndeedAdvanced : Query :=
  mkQuery "https://indeed.com/jobs"
    [("where", whereField), ("radius", radius), ("min_salary", min_salary),
     ("job_type", job_type), ("experience", experience), ("start", start),
     ("all_words", all_of_these_words), ("exact_phrase", exact_phrase),
     ("any_words", any_of_these_words), ("none_words", none_of_these_words),
     ("title_words", title_words), ("from_company", from_company),
     ("from_job_site", from_this_job_site), ("posted_to", posted_to),
     ("hired_by", hired_by), ("sort_by", sort_by), ("limit", limit),
     ("age", from_age), ("psf", psf), ("searched_from", searched_from)]

/-- Query-Model states reachable from `q0` by successful `set` calls. -/
inductive Reachable (q0 : Query) : Query → Prop where
  | refl : Reachable q0 q0
  | step : ∀ {q q2 : Query} (n : String) (v : Value),
      Reachable q0 q → q.set n v = .ok q2 → Reachable q0 q2

/-! Pagination walker, from the notebook's `more_pages` / `get_page_results`.
A parsed results page is abstracted to what those functions read from the
soup: the pagination block (if the document has one), its `np` ("next page")
span presence, the bold self-reported page number, and the `data-jk` ids of
the result cards in DOM order. -/

/-- Content of the page's pagination `div`: whether a `span.np` next-page
affordance is present, and the page number in the `b` element. -/
structure PaginationBlock where
  hasNextSpan : Bool
  pageNumber : Int
deriving DecidableEq, Repr

/-- A fetched and parsed results page. -/
structure ResultsPage where
  paginationBlock : Option PaginationBlock
  cardIds : List String
deriving DecidableEq, Repr

/-- Failures of the crawl loop: a structurally missing pagination block
(the notebook's unguarded `pagination.find` then raises on `None`, embedded
here as an error value), or the fetch collaborator producing no page. -/
inductive ScrapeError where
  | pageParseError : ScrapeError
  | transportError : ScrapeError
deriving DecidableEq, Repr

/-- The notebook's `more_pages(soup, start)`: find the pagination div (its
absence makes the unguarded member lookups fail, embedded as
`pageParseError`), then continue exactly when a next-page span exists and
the self-reported page number matches the cursor via
`(page_number - 1)*10 == start`. -/
def more_pages (p : ResultsPage) (start : Nat) : Except ScrapeError Bool :=
  match p.paginationBlock with
  | none => .error .pageParseError
  | some pb => .ok (pb.hasNextSpan && ((pb.pageNumber - 1) * 10 == (start : Int)))

/-- Detail links built from a page's cards, as in `get_page_results`:
`'https://indeed.com/viewjob?' + urlencode(\x7b'jk': card['data-jk']\x7d)`. -/
def pageLinks (p : ResultsPage) : List String :=
  p.cardIds.map (fun jk => "https://indeed.com/viewjob?" ++ "jk=" ++ quote_plus jk)

/-- The notebook's recursive `get_page_results(query)`.  The fetch-and-parse
collaborator is abstracted as the list of successive pages it would deliver;
the walker consumes one per visit, threading the query's `start` cursor, and
returns the accumulated links together with the final cursor value.  An
exhausted page list stands for a fetch failure (`transportError`); a
`more_pages` failure aborts the whole walk, as the Python exception would. -/
def get_page_results : List ResultsPage → Nat → Except ScrapeError (List String × Nat)
  | [], _ => .error .transportError
  | p :: rest, start =>
    match more_pages p start with
    | .error e => .error e
    | .ok true =>
      match get_page_results rest (start + 10) with
      | .ok (ls, s) => .ok (pageLinks p ++ ls, s)
      | .error e => .error e
    | .ok false => .ok (pageLinks p, start)

/-! Detail extractor, from the notebook's `get_header_information` /
`get_posting_info`.  A parsed detail page is abstracted to what the extractor
reads: the sticky header container (if present), the title element's text
(if present), the company link of the subtitle block (if present) together
with the texts of the `div` siblings following the link's parent container
(the location is the last of them). -/

/-- The header region a detail page may carry. -/
structure HeaderRegion where
  titleText : Option String
  companyLink : Option (String × List String)
deriving DecidableEq, Repr

/-- A fetched and parsed detail page. -/
structure DetailPage where
  header : Option HeaderRegion
deriving DecidableEq, Repr

/-- Extraction failure: any absent header region or sub-element makes the
notebook's unguarded lookups raise; embedded as an error value per the
spec's `ExtractionError`. -/
inductive ExtractErr where
  | extractionError : ExtractErr
deriving DecidableEq, Repr

/-- The structured record the extractor produces. -/
structure ExtractedRecord where
  title : String
  company_name : String
  location : String
deriving DecidableEq, Repr

/-- The notebook's `get_header_information(soup)`: missing header region,
missing title, missing company link, or no following sibling for the
location all fail; otherwise the record is built from the three texts. -/
def get_header_information (p : DetailPage) : Except ExtractErr ExtractedRecord :=
  match p.header with
  | none => .error .extractionError
  | some h =>
    match h.titleText with
    | none => .error .extractionError
    | some t =>
      match h.companyLink with
      | none => .error .extractionError
      | some (cname, sibs) =>
        match sibs.getLast? with
        | none => .error .extractionError
        | some loc => .ok ⟨t, cname, loc⟩

/-- The notebook's `get_posting_info`, with the fetch collaborator
abstracted: the already-fetched-and-parsed page is handed in. -/
def get_posting_info (p : DetailPage) : Except ExtractErr ExtractedRecord :=
  get_header_information p

/-- Modelled from the spec: the per-item batch loop (spec section 7,
"detail-extraction errors are caught per item and reported as a per-item
failure alongside any successfully extracted records"); no such loop appears
in the notebook source. -/
def extractBatch (pages : List DetailPage) : List (Except ExtractErr ExtractedRecord) :=
  pages.map get_posting_info

/-- A structural defect of a detail page: header region absent, or any of
its three sub-elements (title, company link, location container) absent. -/
def headerDefective (p : DetailPage) : Bool :=
  match p.header with
  | none => true
  | some h =>
    h.titleText.isNone ||
      match h.companyLink with
      | none => true
      | some (_, sibs) => sibs.isEmpty

/-! Mock pages used by concrete witnesses. -/

def mockPage1 : ResultsPage := ⟨some ⟨true, 1⟩, ["a1", "a2"]⟩

def mockPage2 : ResultsPage := ⟨some ⟨true, 2⟩, ["b1"]⟩

def mockPage3 : ResultsPage := ⟨some ⟨false, 3⟩, ["c1", "c2"]⟩

def mockNoPagBlock : ResultsPage := ⟨none, ["d1"]⟩

def mockStalePage : ResultsPage := ⟨some ⟨true, 7⟩, ["e1"]⟩

/-- Helper: every successful walk ends with a cursor of the form
`start + 10 * k`. -/
theorem getPageResults_cursor (pgs : List ResultsPage) :
    ∀ (start : Nat) (ls : List String) (s : Nat),
      get_page_results pgs start = Except.ok (ls, s) → ∃ k, s = start + 10 * k := by
  induction pgs with
  | nil => intro start ls s h; simp [get_page_results] at h
  | cons p rest ih =>
    intro start ls s h
    simp only [get_page_results] at h
    cases hm : more_pages p start with
    | error e => rw [hm] at h; exact absurd h (by simp)
    | ok b =>
      rw [hm] at h
      cases b with
      | true =>
        simp only at h
        cases hr : get_page_results rest (start + 10) with
        | error e => rw [hr] at h; exact absurd h (by simp)
        | ok r =>
          rw [hr] at h
          simp only [Except.ok.injEq, Prod.mk.injEq] at h
          obtain ⟨k, hk⟩ := ih (start + 10) r.1 r.2 (by rw [hr])
          exact ⟨k + 1, by omega⟩
      | false =>
        simp only [Except.ok.injEq, Prod.mk.injEq] at h
        exact ⟨0, by omega⟩

/-- Claim C1: for every finite sequence of pages in which the page at index
`k` reports no further pages while every earlier page reports more, the
pagination walker returns exactly the concatenation of the visited pages'
item links in visitation order (page 1 first, each page's links in DOM
order), with the start cursor ending at `start + 10 * k`. -/
theorem pagination_walker_concat (pgs : List ResultsPage) :
    ∀ (start k : Nat) (hk : k < pgs.length),
      more_pages (pgs.get ⟨k, hk⟩) (start + 10 * k) = Except.ok false →
      (∀ (i : Nat) (hi : i < k),
        more_pages (pgs.get ⟨i, hi.trans hk⟩) (start + 10 * i) = Except.ok true) →
      get_page_results pgs start =
        Except.ok (((pgs.take (k + 1)).map pageLinks).flatten, start + 10 * k) := by
  induction pgs with
  | nil => intro start k hk; exact absurd hk (by simp)
  | cons p rest ih =>
    intro start k hk hlast hprev
    cases k with
    | zero =>
      have h0 : more_pages p start = Except.ok false := by simpa using hlast
      simp [get_page_results, h0]
    | succ k2 =>
      have h0 : more_pages p start = Except.ok true := by
        simpa using hprev 0 (Nat.succ_pos k2)
      have hk2 : k2 < rest.length := by simpa using Nat.lt_of_succ_lt_succ hk
      have hlast2 : more_pages (rest.get ⟨k2, hk2⟩) (start + 10 + 10 * k2) =
          Except.ok false := by
        have : start + 10 * (k2 + 1) = start + 10 + 10 * k2 := by omega
        simpa [this] using hlast
      have hprev2 : ∀ (i : Nat) (hi : i < k2),
          more_pages (rest.get ⟨i, hi.trans hk2⟩) (start + 10 + 10 * i) =
            Except.ok true := by
        intro i hi
        have := hprev (i + 1) (Nat.succ_lt_succ hi)
        have harith : start + 10 * (i + 1) = start + 10 + 10 * i := by omega
        simpa [harith] using this
      have ihr := ih (start + 10) k2 hk2 hlast2 hprev2
      simp only [get_page_results, h0, ihr]
      have : start + 10 + 10 * k2 = start + 10 * (k2 + 1) := by omega
      simp [List.take_succ_cons, this]

/-- Witness for C1, the spec's Scenario C: three mock pages, the third
reporting no next page; the walker returns the three pages' links in order
and the cursor ends at `20 = 2 * pageSize`. -/
theorem pagination_walker_concat_witness :
    get_page_results [mockPage1, mockPage2, mockPage3] 0 =
      Except.ok (pageLinks mockPage1 ++ (pageLinks mockPage2 ++ pageLinks mockPage3), 20) := by
  have h := pagination_walker_concat [mockPage1, mockPage2, mockPage3] 0 2
    (by decide) (by rfl)
    (by intro i hi
        interval_cases i
        · rfl
        · rfl)
  simpa using h

/-- Claim C2: for every parsed page and cursor offset, the continuation
decision is true exactly when the page exposes a next affordance and
`(reportedPageNumber - 1) * 10` equals the current offset; and a page for
which the decision is false (in particular one whose self-reported number is
inconsistent with the cursor) ends the walk immediately instead of looping. -/
theorem more_pages_iff (p : ResultsPage) (pb : PaginationBlock) (start : Nat)
    (hp : p.paginationBlock = some pb) :
    (more_pages p start = Except.ok true ↔
      pb.hasNextSpan = true ∧ (pb.pageNumber - 1) * 10 = (start : Int)) ∧
    (∀ rest : List ResultsPage, more_pages p start = Except.ok false →
      get_page_results (p :: rest) start = Except.ok (pageLinks p, start)) := by
  constructor
  · simp [more_pages, hp]
  · intro rest h
    simp [get_page_results, h]

/-- Witness for C2, the spec's Scenario D: a page self-reporting page number
7 while the cursor is 10 is treated as the end of results — the decision is
not true, and the walker returns just this page's links without visiting the
rest. -/
theorem more_pages_iff_witness :
    ¬ ((⟨true, 7⟩ : PaginationBlock).hasNextSpan = true ∧
        ((⟨true, 7⟩ : PaginationBlock).pageNumber - 1) * 10 = ((10 : Nat) : Int)) ∧
    get_page_results [mockStalePage, mockPage2] 10 =
      Except.ok (pageLinks mockStalePage, 10) := by
  have h := more_pages_iff mockStalePage ⟨true, 7⟩ 10 rfl
  constructor
  · intro hc
    have : more_pages mockStalePage 10 = Except.ok true := h.1.mpr hc
    simp [more_pages, mockStalePage] at this
  · exact h.2 [mockPage2] rfl

/-- Claim C3: a page whose pagination control is structurally absent makes
the walker fail (the notebook's unguarded lookup raises, embedded as
`pageParseError`); the walk never returns a result that silently treats the
absence as "no more pages". -/
theorem missing_pagination_fails (p : ResultsPage) (rest : List ResultsPage)
    (start : Nat) (hp : p.paginationBlock = none) :
    get_page_results (p :: rest) start = Except.error ScrapeError.pageParseError := by
  simp [get_page_results, more_pages, hp]

/-- Witness for C3: a concrete page with no pagination block fails the walk. -/
theorem missing_pagination_fails_witness :
    get_page_results [mockNoPagBlock] 0 = Except.error ScrapeError.pageParseError :=
  missing_pagination_fails mockNoPagBlock [] 0 rfl

/-- Claim C10: the walker's cursor discipline uses the constant page size 10
independently of the `limit` field (which the walker never reads): a
continuing transition advances the cursor by exactly 10, every successful
walk ends with cursor `start + 10 * k`, and a walk started at 0 ends on a
multiple of 10. -/
theorem cursor_increments_by_ten :
    (∀ (p : ResultsPage) (rest : List ResultsPage) (start : Nat),
      more_pages p start = Except.ok true →
      get_page_results (p :: rest) start =
        (get_page_results rest (start + 10)).map (fun r => (pageLinks p ++ r.1, r.2))) ∧
    (∀ (pgs : List ResultsPage) (start : Nat) (ls : List String) (s : Nat),
      get_page_results pgs start = Except.ok (ls, s) → ∃ k, s = start + 10 * k) ∧
    (∀ (pgs : List ResultsPage) (ls : List String) (s : Nat),
      get_page_results pgs 0 = Except.ok (ls, s) → s % 10 = 0) := by
  refine ⟨?_, ?_, ?_⟩
  · intro p rest start h
    cases hr : get_page_results rest (start + 10) with
    | error e => simp [get_page_results, h, hr, Except.map]
    | ok r => simp [get_page_results, h, hr, Except.map]
  · exact fun pgs => getPageResults_cursor pgs
  · intro pgs ls s h
    obtain ⟨k, hk⟩ := getPageResults_cursor pgs 0 ls s h
    omega

/-- Witness for C10: the three-page mock walk started at 0 ends with cursor
20, a multiple of 10. -/
theorem cursor_increments_by_ten_witness : (20 : Nat) % 10 = 0 :=
  cursor_increments_by_ten.2.2 [mockPage1, mockPage2, mockPage3]
    (pageLinks mockPage1 ++ (pageLinks mockPage2 ++ (pageLinks mockPage3 ++ []))) 20 (by rfl)

/-- Claim C9: the detail extractor fails exactly on a page whose header
region or one of its three sub-elements (title, company link, location
container) is absent, and the failure is per item — extracting a batch
processes every page independently, so one failing page leaves the results
of all pages before and after it unchanged. -/
theorem extraction_error_is_per_item :
    (∀ p : DetailPage,
      get_header_information p = Except.error ExtractErr.extractionError ↔
        headerDefective p = true) ∧
    (∀ (pre post : List DetailPage) (p : DetailPage),
      extractBatch (pre ++ p :: post) =
        extractBatch pre ++ get_posting_info p :: extractBatch post) := by
  constructor
  · intro p
    obtain ⟨header⟩ := p
    match header with
    | none => simp [get_header_information, headerDefective]
    | some ⟨none, cl⟩ => simp [get_header_information, headerDefective]
    | some ⟨some t, none⟩ => simp [get_header_information, headerDefective]
    | some ⟨some t, some (c, [])⟩ => simp [get_header_information, headerDefective]
    | some ⟨some t, some (c, a :: l)⟩ =>
      cases hgl : (a :: l).getLast? with
      | none => exact absurd hgl (by simp [List.getLast?_eq_none_iff])
      | some loc => simp [get_header_information, headerDefective, hgl]
  · intro pre post p
    simp [extractBatch]

/-- Claim C4: assigning a value outside a field's `choices` set fails with
`ValidationError`, and the state the caller observes afterwards is the
unchanged prior model (atomic set). -/
theorem set_nonmember_choice_fails (q : Query) (n : String) (f : QueryArgument)
    (st : Option Value) (v : Value) (cs : List Value)
    (hl : q.lookupField n = some (f, st)) (hc : f.choices = some cs) (hv : v ∉ cs) :
    (∃ msg, q.set n v = Except.error (QError.validationError msg)) ∧
    q.setOr n v = q := by
  have hval : ∃ msg, validateArg f v = Except.error (QError.validationError msg) := by
    cases ht : typeOk f v with
    | false => exact ⟨"type mismatch for " ++ f.wireKey, by simp [validateArg, ht]⟩
    | true =>
      have hco : choiceOk f v = false := by
        simp only [choiceOk, hc]
        simpa using hv
      exact ⟨"value not an allowed choice for " ++ f.wireKey, by simp [validateArg, ht, hco]⟩
  obtain ⟨msg, hmsg⟩ := hval
  have hset : q.set n v = Except.error (QError.validationError msg) := by
    simp [Query.set, hl, hmsg]
  exact ⟨⟨msg, hset⟩, by simp [Query.setOr, hset]⟩

/-- Witness for C4: assigning `radius := 7` (not one of the allowed radii)
to the simple preset fails with `ValidationError` and leaves the model as it
was. -/
theorem set_nonmember_choice_fails_witness :
    (∃ msg, IndeedSimple.set "radius" (Value.vi 7) =
        Except.error (QError.validationError msg)) ∧
    IndeedSimple.setOr "radius" (Value.vi 7) = IndeedSimple :=
  set_nonmember_choice_fails IndeedSimple "radius" radius none (Value.vi 7)
    [.vi 0, .vi 5, .vi 10, .vi 15, .vi 25, .vi 50, .vi 100]
    (by rfl) (by rfl) (by decide)

/-- Claim C8: `url` is a pure, deterministic function of the model's state —
two calls without an intervening mutation yield byte-identical output. -/
theorem url_deterministic (q : Query) (s1 s2 : Except QError String)
    (h1 : q.url = s1) (h2 : q.url = s2) : s1 = s2 := by
  rw [← h1, ← h2]

/-- Witness for C8: two `url` calls on the advanced preset with a location
set produce the same concrete string. -/
theorem url_deterministic_witness :
    (Except.ok "https://indeed.com/jobs?l=San+Francisco%2C+CA&psf=advsrch&from=advancedsearch"
        : Except QError String) =
      Except.ok "https://indeed.com/jobs?l=San+Francisco%2C+CA&psf=advsrch&from=advancedsearch" :=
  url_deterministic (IndeedAdvanced.setOr "where" (Value.vs "San Francisco, CA")) _ _
    (by rfl) (by rfl)

/-- Helper: a successful `set` only ever produces a state satisfying the
cross-field `requires` invariant, because `set` checks it on the tentative
resulting state before committing. -/
theorem set_ok_requiresOk {q q2 : Query} {n : String} {v : Value}
    (h : q.set n v = Except.ok q2) : requiresOk q2 = true := by
  simp only [Query.set] at h
  split at h
  · exact absurd h (by simp)
  · split at h
    · exact absurd h (by simp)
    · split at h
      · rw [Except.ok.injEq] at h
        rw [← h]
        assumption
      · exact absurd h (by simp)

/-- A simple-preset state in which `company_id` holds a value, as it would
had the pair been populated together. -/
def withCompanyId : Query :=
  ⟨IndeedSimple.baseUrl, setField IndeedSimple.fields "company_id" (.vs "45d7691df85ac203")⟩

/-- A simple-preset state in which both `company` and `company_id` hold
values. -/
def withCompanyPair : Query :=
  ⟨IndeedSimple.baseUrl,
    setField (setField IndeedSimple.fields "company_id" (.vs "45d7691df85ac203"))
      "company" (.vs "State of Wyoming")⟩

/-- Claim C7 (amended): setting either field of the `company`/`company_id`
pair while its partner is unset fails with `ValidationError` at mutation
time — so sequentially setting the two fields fails at the first call in
either order; a state in which the partner is already present accepts the
other field, a state holding both values satisfies the cross-field check,
and every state reachable by successful mutations satisfies the
`requiresField` invariant. -/
theorem requires_pair_enforced :
    (∀ q : Query, Reachable IndeedSimple q → requiresOk q = true) ∧
    (∃ msg, IndeedSimple.set "company" (Value.vs "State of Wyoming") =
        Except.error (QError.validationError msg)) ∧
    (∃ msg, IndeedSimple.set "company_id" (Value.vs "45d7691df85ac203") =
        Except.error (QError.validationError msg)) ∧
    (∃ q2, withCompanyId.set "company" (Value.vs "State of Wyoming") = Except.ok q2) ∧
    requiresOk withCompanyPair = true := by
  refine ⟨?_, ⟨_, by rfl⟩, ⟨_, by rfl⟩, ⟨_, by rfl⟩, by rfl⟩
  intro q h
  induction h with
  | refl => rfl
  | step n v hr hset ih => exact set_ok_requiresOk hset

/-- Witness for C7 (amended): the initial simple preset itself satisfies the
cross-field invariant. -/
theorem requires_pair_enforced_witness : requiresOk IndeedSimple = true :=
  requires_pair_enforced.1 IndeedSimple Reachable.refl

/-- Counterexample for C7 as stated: the claim asserts that setting both
fields of the pair succeeds in either order, but the very first mutation of
the order that starts with `company_id` already fails (its partner `rbc` is
still unset and the invariant is enforced at mutation time), so no order of
sequential `set` calls populates the pair. -/
theorem requires_pair_cex :
    IndeedSimple.set "company_id" (Value.vs "45d7691df85ac203") =
      Except.error (QError.validationError "missing required partner for company_id") := by
  rfl

/-- Helper: accumulating a pair under key `k` space-appends to the group
already stored at `k`, or opens a group holding just the value. -/
theorem lookupKey_addToGroups_eq (l : List (String × String)) (k v : String) :
    lookupKey (addToGroups l k v) k =
      some (match lookupKey l k with
            | some s => s ++ " " ++ v
            | none => v) := by
  induction l with
  | nil => simp [addToGroups, lookupKey]
  | cons p ps ih =>
    cases hb : (p.1 == k) with
    | true => simp [addToGroups, lookupKey, hb]
    | false => simp [addToGroups, lookupKey, hb, ih]

/-- Helper: accumulating a pair under a different key leaves the group at
`k` unchanged. -/
theorem lookupKey_addToGroups_ne (l : List (String × String)) (k k2 v : String)
    (h : (k2 == k) = false) :
    lookupKey (addToGroups l k2 v) k = lookupKey l k := by
  induction l with
  | nil => simp [addToGroups, lookupKey, h]
  | cons p ps ih =>
    cases hp : (p.1 == k2) with
    | true =>
      have hpk : (p.1 == k) = false := by
        have h1 : p.1 = k2 := by simpa using hp
        have h2 : ¬ k2 = k := by simpa using h
        simpa [h1] using h2
      simp [addToGroups, lookupKey, hp, hpk]
    | false => simp [addToGroups, lookupKey, hp, ih]

/-- Helper: folding pairs into groups from an arbitrary accumulator reads
back, at each key, the accumulator's group extended by the pairs' values in
order, space-joined. -/
theorem lookupKey_buildAux (l : List (String × String)) :
    ∀ (acc : List (String × String)) (k : String),
      lookupKey (l.foldl (fun a p => addToGroups a p.1 p.2) acc) k =
        match lookupKey acc k with
        | some s => some (joinFrom s (valuesFor l k))
        | none =>
          match valuesFor l k with
          | [] => none
          | v :: vs => some (joinFrom v vs) := by
  induction l with
  | nil =>
    intro acc k
    cases h : lookupKey acc k <;> simp [valuesFor, joinFrom, h]
  | cons p ps ih =>
    intro acc k
    rw [List.foldl_cons, ih (addToGroups acc p.1 p.2) k]
    cases hb : (p.1 == k) with
    | true =>
      have hk : p.1 = k := by simpa using hb
      subst hk
      rw [lookupKey_addToGroups_eq]
      cases hacc : lookupKey acc p.1 with
      | some s => simp [valuesFor, joinFrom, List.filter_cons, hacc]
      | none => simp [valuesFor, joinFrom, List.filter_cons, hacc]
    | false =>
      rw [lookupKey_addToGroups_ne acc k p.1 p.2 hb]
      simp [valuesFor, List.filter_cons, hb]

/-- Helper: reading a key out of the built groups yields exactly the
space-join of the values declared under that key, in declaration order. -/
theorem lookupKey_buildGroups (l : List (String × String)) (k : String) :
    lookupKey (buildGroups l) k =
      match valuesFor l k with
      | [] => none
      | v :: vs => some (joinFrom v vs) := by
  have h := lookupKey_buildAux l [] k
  simpa [buildGroups, lookupKey] using h

/-- Helper: a missing group means no pair carries the key. -/
theorem lookupKey_eq_none_iff (l : List (String × String)) (k : String) :
    lookupKey l k = none ↔ k ∉ l.map Prod.fst := by
  induction l with
  | nil => simp [lookupKey]
  | cons p ps ih =>
    by_cases hb : p.1 = k
    · simp [lookupKey, hb]
    · simp [lookupKey, hb, ih, Ne.symm hb]

/-- Helper: accumulating a pair keeps the key list unless the key is new,
in which case it is appended. -/
theorem keys_addToGroups (l : List (String × String)) (k v : String) :
    (addToGroups l k v).map Prod.fst =
      match lookupKey l k with
      | some _ => l.map Prod.fst
      | none => l.map Prod.fst ++ [k] := by
  induction l with
  | nil => simp [addToGroups, lookupKey]
  | cons p ps ih =>
    cases hb : (p.1 == k) with
    | true => simp [addToGroups, lookupKey, hb]
    | false =>
      simp only [addToGroups, lookupKey, hb]
      cases hps : lookupKey ps k with
      | some s => simp [List.map_cons, ih, hps]
      | none => simp [List.map_cons, ih, hps]

/-- Helper: the built groups never hold the same wire key twice. -/
theorem nodup_buildAux (l : List (String × String)) :
    ∀ acc : List (String × String), (acc.map Prod.fst).Nodup →
      ((l.foldl (fun a p => addToGroups a p.1 p.2) acc).map Prod.fst).Nodup := by
  induction l with
  | nil => intro acc h; simpa using h
  | cons p ps ih =>
    intro acc h
    rw [List.foldl_cons]
    apply ih
    rw [keys_addToGroups]
    cases hacc : lookupKey acc p.1 with
    | some s => exact h
    | none =>
      have hnm : p.1 ∉ acc.map Prod.fst := (lookupKey_eq_none_iff acc p.1).mp hacc
      simp [List.nodup_append, h, hnm]

/-- Claim C5: within one Query Model, a wire key shared by several fields
with present values appears in the serialized groups exactly once, holding
the fields' formatted values joined by single spaces in field-declaration
order — never one value overwriting another. -/
theorem shared_wirekey_space_joined (q : Query) (k : String) :
    ((buildGroups (presentPairs q)).map Prod.fst).Nodup ∧
    (∀ v, lookupKey (buildGroups (presentPairs q)) k = some v →
      v = sjoin (valuesFor (presentPairs q) k)) := by
  constructor
  · exact nodup_buildAux (presentPairs q) [] (by simp)
  · intro v hv
    rw [lookupKey_buildGroups] at hv
    cases hval : valuesFor (presentPairs q) k with
    | nil => rw [hval] at hv; simp at hv
    | cons a vs =>
      rw [hval] at hv
      simp only [Option.some.injEq] at hv
      rw [← hv]
      simp [sjoin]

/-- Witness for C5: with `what = "job"` and `min_salary = 60000` both set in
the simple preset (both on wire key `q`), the serialized group for `q` is
the space-join `"job $60000"`, the formatted values in declaration order. -/
theorem shared_wirekey_space_joined_witness :
    "job $60000" = sjoin (valuesFor (presentPairs
      ((IndeedSimple.setOr "what" (Value.vs "job")).setOr "min_salary" (Value.vi 60000))) "q") :=
  (shared_wirekey_space_joined
      ((IndeedSimple.setOr "what" (Value.vs "job")).setOr "min_salary" (Value.vi 60000)) "q").2
    "job $60000" (by rfl)

/-- Helper: a successful `set` produces exactly the tentatively-applied
state. -/
theorem set_ok_eq {q q2 : Query} {n : String} {v : Value}
    (h : q.set n v = Except.ok q2) : q2 = ⟨q.baseUrl, setField q.fields n v⟩ := by
  simp only [Query.set] at h
  split at h
  · exact absurd h (by simp)
  · split at h
    · exact absurd h (by simp)
    · split at h
      · rw [Except.ok.injEq] at h
        exact h.symm
      · exact absurd h (by simp)

/-- Helper: storing a value never changes the logical names or descriptors
of the field list. -/
theorem setField_shape (fs : List (String × QueryArgument × Option Value))
    (n : String) (v : Value) :
    (setField fs n v).map (fun e => (e.1, e.2.1)) = fs.map (fun e => (e.1, e.2.1)) := by
  induction fs with
  | nil => simp [setField]
  | cons e es ih =>
    simp only [setField, List.map_cons] at ih ⊢
    rw [ih]
    cases hb : (e.1 == n) <;> simp

/-- Helper: every state reachable by successful mutations keeps the base URL
and the (name, descriptor) shape of its origin. -/
theorem reachable_shape {q0 q : Query} (h : Reachable q0 q) :
    q.baseUrl = q0.baseUrl ∧
    q.fields.map (fun e => (e.1, e.2.1)) = q0.fields.map (fun e => (e.1, e.2.1)) := by
  induction h with
  | refl => exact ⟨rfl, rfl⟩
  | @step qa qb n v hr hset ih =>
    have h2 := set_ok_eq hset
    constructor
    · rw [h2]
      exact ih.1
    · rw [h2]
      exact (setField_shape qa.fields n v).trans ih.2

/-- Serialized contribution of one field entry to the group of wire key
`k`: its formatted current value when the entry is declared under `k` and
holds a value, nothing otherwise. -/
def entryVal (k : String) (e : String × QueryArgument × Option Value) : Option String :=
  if e.2.1.wireKey == k then (curVal e.2.1 e.2.2).map (formatVal e.2.1) else none

/-- Helper: the values a wire key collects from the present pairs are the
formatted current values of the fields declared under that key. -/
theorem valuesFor_presentPairsL (fs : List (String × QueryArgument × Option Value))
    (k : String) :
    valuesFor (presentPairsL fs) k = fs.filterMap (entryVal k) := by
  induction fs with
  | nil => simp [presentPairsL, valuesFor]
  | cons e es ih =>
    rw [List.filterMap_cons]
    cases hcv : curVal e.2.1 e.2.2 with
    | none =>
      have he : entryVal k e = none := by
        simp [entryVal, hcv]
      rw [he]
      simpa [presentPairsL, List.filterMap_cons, hcv] using ih
    | some v =>
      cases hb : (e.2.1.wireKey == k) with
      | true =>
        have he : entryVal k e = some (formatVal e.2.1 v) := by
          simp [entryVal, hb, hcv]
        rw [he]
        simp only [presentPairsL, List.filterMap_cons, hcv] at ih ⊢
        simpa [valuesFor, List.filter_cons, hb] using ih
      | false =>
        have he : entryVal k e = none := by
          simp [entryVal, hb]
        rw [he]
        simp only [presentPairsL, List.filterMap_cons, hcv] at ih ⊢
        simpa [valuesFor, List.filter_cons, hb] using ih

/-- Helper: entries whose wire key never matches contribute no values. -/
theorem filterMap_entries_nil (k : String)
    (es : List (String × QueryArgument × Option Value))
    (h : es.countP (fun e => e.2.1.wireKey == k) = 0) :
    es.filterMap (entryVal k) = [] := by
  induction es with
  | nil => simp
  | cons e es2 ih =>
    rw [List.countP_cons] at h
    cases hb : (e.2.1.wireKey == k) with
    | true => simp [hb] at h
    | false =>
      have he : entryVal k e = none := by
        simp [entryVal, hb]
      rw [List.filterMap_cons, he]
      exact ih (by simpa [hb] using h)

/-- Helper: when exactly one declared field carries wire key `k` and that
field is immutable with fixed value `fv` formatting to `fmtv`, the key's
value group is `[fmtv]` in every state sharing the declaration shape,
whatever values the mutable fields hold. -/
theorem valuesFor_imm (k : String) (fv : Value) (fmtv : String)
    (fs : List (String × QueryArgument × Option Value))
    (hall : ∀ e ∈ fs, e.2.1.wireKey = k →
      e.2.1.mutable = false ∧ e.2.1.fixedValue = some fv ∧ formatVal e.2.1 fv = fmtv)
    (hcount : fs.countP (fun e => e.2.1.wireKey == k) = 1) :
    valuesFor (presentPairsL fs) k = [fmtv] := by
  rw [valuesFor_presentPairsL]
  induction fs with
  | nil => simp at hcount
  | cons e es ih =>
    rw [List.countP_cons] at hcount
    cases hb : (e.2.1.wireKey == k) with
    | false =>
      have he : entryVal k e = none := by
        simp [entryVal, hb]
      rw [List.filterMap_cons, he]
      exact ih (fun e2 he2 => hall e2 (List.mem_cons_of_mem e he2))
        (by simpa [hb] using hcount)
    | true =>
      have hwk : e.2.1.wireKey = k := by simpa using hb
      obtain ⟨hmut, hfix, hfmt⟩ := hall e (List.mem_cons_self e es) hwk
      have hcv : curVal e.2.1 e.2.2 = some fv := by
        simp [curVal, hmut, hfix]
      have he : entryVal k e = some fmtv := by
        simp [entryVal, hb, hcv, hfmt]
      have hrest : es.countP (fun e => e.2.1.wireKey == k) = 0 := by
        simp only [hb, if_true] at hcount
        omega
      rw [List.filterMap_cons, he, filterMap_entries_nil k es hrest]

/-- Helper: a key read back from an association list is a member. -/
theorem mem_of_lookupKey {l : List (String × String)} {k v : String}
    (h : lookupKey l k = some v) : (k, v) ∈ l := by
  induction l with
  | nil => simp [lookupKey] at h
  | cons p ps ih =>
    simp only [lookupKey] at h
    by_cases hb : (p.1 == k) = true
    · rw [if_pos hb] at h
      have hv : p.2 = v := by simpa using h
      have hk : p.1 = k := by simpa using hb
      subst hk
      subst hv
      simp
    · rw [if_neg hb] at h
      exact List.mem_cons_of_mem _ (ih h)

/-- Helper: every member of the group list appears verbatim inside the
&-joined query string. -/
theorem infix_of_mem_joinAmp {s : String} {l : List String} (h : s ∈ l) :
    ∃ a b, joinAmp l = a ++ (s ++ b) := by
  induction l with
  | nil => simp at h
  | cons x xs ih =>
    cases xs with
    | nil =>
      have hx : s = x := by simpa using h
      exact ⟨"", "", by simp [joinAmp, hx]⟩
    | cons y ys =>
      have hj : joinAmp (x :: y :: ys) = x ++ "&" ++ joinAmp (y :: ys) := rfl
      rcases List.mem_cons.mp h with hs | hs
      · exact ⟨"", "&" ++ joinAmp (y :: ys), by rw [hj, hs]; simp [String.append_assoc]⟩
      · obtain ⟨a, b, hab⟩ := ih hs
        exact ⟨x ++ "&" ++ a, b, by rw [hj, hab]; simp [String.append_assoc]⟩

/-- Helper: in any state reachable from the advanced preset, a wire key
declared exactly once and only on an immutable fixed-value field serializes
to exactly that fixed value's formatted form. -/
theorem reachable_adv_imm_group (q : Query) (hq : Reachable IndeedAdvanced q)
    (k : String) (fv : Value) (fmtv : String)
    (hconc : ∀ p ∈ IndeedAdvanced.fields.map (fun e => (e.1, e.2.1)),
      p.2.wireKey = k →
        p.2.mutable = false ∧ p.2.fixedValue = some fv ∧ formatVal p.2 fv = fmtv)
    (hcnt : (IndeedAdvanced.fields.map (fun e => (e.1, e.2.1))).countP
      (fun p => p.2.wireKey == k) = 1) :
    valuesFor (presentPairs q) k = [fmtv] := by
  have hshape := (reachable_shape hq).2
  apply valuesFor_imm k fv fmtv q.fields
  · intro e he hwk
    have hmem : (e.1, e.2.1) ∈ q.fields.map (fun e => (e.1, e.2.1)) :=
      List.mem_map_of_mem _ he
    rw [hshape] at hmem
    exact hconc _ hmem hwk
  · have hc2 : (q.fields.map (fun e => (e.1, e.2.1))).countP
        (fun p => p.2.wireKey == k) = 1 := by
      rw [hshape]
      exact hcnt
    rw [List.countP_map] at hc2
    exact hc2

/-- Claim C6: immutable fixed-value fields are always serialized — every
state reachable from the advanced preset (whether or not the caller ever
assigned them) produces, when `url` succeeds, a query string containing
`psf=advsrch` and `from=advancedsearch`. -/
theorem immutable_fields_always_serialized (q : Query)
    (hq : Reachable IndeedAdvanced q) (s : String) (hu : q.url = Except.ok s) :
    (∃ a b, s = a ++ ("psf=advsrch" ++ b)) ∧
    (∃ c d, s = c ++ ("from=advancedsearch" ++ d)) := by
  have hs : s = q.baseUrl ++ "?" ++ joinAmp ((wirePairs q).map encPair) := by
    simp only [Query.url] at hu
    split at hu
    · exact absurd hu (by simp)
    · rw [Except.ok.injEq] at hu
      exact hu.symm
  constructor
  · have hv : valuesFor (presentPairs q) "psf" = ["advsrch"] :=
      reachable_adv_imm_group q hq "psf" (.vs "advsrch") "advsrch"
        (by decide) (by decide)
    have hlk : lookupKey (buildGroups (presentPairs q)) "psf" = some "advsrch" := by
      rw [lookupKey_buildGroups, hv]
      rfl
    have hm : ("psf", "advsrch") ∈ wirePairs q :=
      List.mem_filter.mpr ⟨mem_of_lookupKey hlk, by decide⟩
    have hmm : encPair ("psf", "advsrch") ∈ (wirePairs q).map encPair :=
      List.mem_map_of_mem _ hm
    obtain ⟨a, b, hab⟩ := infix_of_mem_joinAmp hmm
    refine ⟨q.baseUrl ++ "?" ++ a, b, ?_⟩
    rw [hs, hab, show encPair ("psf", "advsrch") = "psf=advsrch" from rfl]
    simp [String.append_assoc]
  · have hv : valuesFor (presentPairs q) "from" = ["advancedsearch"] :=
      reachable_adv_imm_group q hq "from" (.vs "advancedsearch") "advancedsearch"
        (by decide) (by decide)
    have hlk : lookupKey (buildGroups (presentPairs q)) "from" = some "advancedsearch" := by
      rw [lookupKey_buildGroups, hv]
      rfl
    have hm : ("from", "advancedsearch") ∈ wirePairs q :=
      List.mem_filter.mpr ⟨mem_of_lookupKey hlk, by decide⟩
    have hmm : encPair ("from", "advancedsearch") ∈ (wirePairs q).map encPair :=
      List.mem_map_of_mem _ hm
    obtain ⟨c, d, hcd⟩ := infix_of_mem_joinAmp hmm
    refine ⟨q.baseUrl ++ "?" ++ c, d, ?_⟩
    rw [hs, hcd, show encPair ("from", "advancedsearch") = "from=advancedsearch" from rfl]
    simp [String.append_assoc]

/-- The advanced preset with only a location assigned, a state the caller
reaches without ever touching `psf` or `searched_from`. -/
def advWhereSet : Query := IndeedAdvanced.setOr "where" (.vs "San Francisco, CA")

/-- Witness for C6: the URL of the advanced preset with just a location set
contains `psf=advsrch` and `from=advancedsearch`. -/
theorem immutable_fields_always_serialized_witness :
    (∃ a b, "https://indeed.com/jobs?l=San+Francisco%2C+CA&psf=advsrch&from=advancedsearch" =
      a ++ ("psf=advsrch" ++ b)) ∧
    (∃ c d, "https://indeed.com/jobs?l=San+Francisco%2C+CA&psf=advsrch&from=advancedsearch" =
      c ++ ("from=advancedsearch" ++ d)) :=
  immutable_fields_always_serialized advWhereSet
    (Reachable.step "where" (Value.vs "San Francisco, CA") Reachable.refl (by rfl))
    "https://indeed.com/jobs?l=San+Francisco%2C+CA&psf=advsrch&from=advancedsearch"
    (by rfl)

end JobSearch
